import Mathlib

/-!
Shallow embedding of `typing_test/__init__.py` (a terminal typing-speed
trainer built on curses) and proofs about its session state machine.

Modelling conventions:
* Python strings are Lean `String`s (equality is exact, as Python `==`).
* The infinite word generator `_word_generator` first builds the filtered
  vocabulary list (embedded as `wordGenWords`), then yields
  `random.choice(words)` forever.  Randomness is modelled by an arbitrary
  sequence `pick : ℕ → ℕ` of draws together with a counter `rand` stored in
  the game state: the k-th call of `_get_word` returns
  `vocab[(pick k) % vocab.length]`, which is exactly the set of behaviours
  `random.choice` can produce on a non-empty list.  (`random.choice` raises
  on an empty list; theorems that need a drawn word assume `vocab ≠ []`.)
* Fallible code is embedded with `Option` / an error flag:
  `list.pop(0)` on an empty list raises `IndexError` (`finish_word_event`
  returns `none`), `target[idx]` out of range raises (`renderTyped` returns
  `none`), and integer division by zero in `print_stats` raises
  `ZeroDivisionError` before anything is printed (error flag `true`,
  empty output list).
* Real-number arithmetic (Python floats) is modelled over `ℚ`.
-/

namespace TypingTest

/-- Constant `CHARS_PER_WORD = 5` from the source, used for WPM calculation. -/
def CHARS_PER_WORD : ℕ := 5

/-- Constant `QUEUE_SIZE = 10` from the source: length of `next_words`. -/
def QUEUE_SIZE : ℕ := 10

/-- Numeric value of `curses.KEY_BACKSPACE` (ncurses octal 0o407). -/
def KEY_BACKSPACE : ℕ := 263

/-- The ASCII whitespace characters removed by Python `str.strip()`:
space, tab, newline, carriage return, vertical tab, form feed. -/
def isPyWs (c : Char) : Bool :=
  c == ' ' || c == '\t' || c == '\n' || c == '\r' ||
    c == Char.ofNat 11 || c == Char.ofNat 12

/-- Python `str.strip()` on the character list: drop whitespace from the
front, then from the back (via reverse). -/
def pyStripL (l : List Char) : List Char :=
  ((l.dropWhile isPyWs).reverse.dropWhile isPyWs).reverse

/-- Python `line.strip()`. -/
def pyStrip (s : String) : String := String.mk (pyStripL s.data)

/-- Python `s[:-1]` (drop the last character; identity on `""`). -/
def pyDropLast (s : String) : String := String.mk s.data.dropLast

/-- The vocabulary-building loop of `Game._word_generator`:

    words = []
    for line in open(args.vocab):
        word = line.strip()
        if args.min_length <= len(word) <= args.max_length:
            words.append(word)
        if len(words) >= args.words:
            break

`acc` is `words`; the `break` test runs after every line, whether or not
that line was appended. -/
def wordGenLoop (minL maxL N : ℕ) : List String → List String → List String
  | acc, [] => acc
  | acc, line :: rest =>
    let word := pyStrip line
    let acc2 := if minL ≤ word.length ∧ word.length ≤ maxL then acc ++ [word] else acc
    if N ≤ acc2.length then acc2 else wordGenLoop minL maxL N acc2 rest

/-- The filtered vocabulary produced by `Game._word_generator` from the
lines of the vocab file (`minL`/`maxL`/`N` are `args.min_length`,
`args.max_length`, `args.words`). -/
def wordGenWords (minL maxL N : ℕ) (lines : List String) : List String :=
  wordGenLoop minL maxL N [] lines

/-- The length filter of `_word_generator` as a Boolean predicate:
`args.min_length <= len(word) <= args.max_length`. -/
def lenOK (minL maxL : ℕ) (w : String) : Bool :=
  decide (minL ≤ w.length) && decide (w.length ≤ maxL)

/-- One draw of the infinite generator: `random.choice(words)` at stream
position `k`, modelled as an arbitrary pick reduced mod the length.
On an empty vocabulary Python raises; here `getD` returns `""` and the
theorems assume `vocab ≠ []`. -/
def getWord (vocab : List String) (pick : ℕ → ℕ) (k : ℕ) : String :=
  vocab.getD (pick k % vocab.length) ""

/-- The mutable fields of class `Game` (the immutable configuration
`game_time` included), plus `rand`, the implicit position of the word
generator in the random stream. -/
structure GameState where
  game_time : ℕ
  next_words : List String
  correct : List String
  wrong : List String
  input : String
  rand : ℕ
  deriving DecidableEq, Repr

/-- `Game.__init__`: queue of `QUEUE_SIZE` fresh draws, empty
correct/wrong history, empty input. -/
def initState (vocab : List String) (pick : ℕ → ℕ) (game_time : ℕ) : GameState :=
  { game_time := game_time
    next_words := (List.range QUEUE_SIZE).map (getWord vocab pick)
    correct := []
    wrong := []
    input := ""
    rand := QUEUE_SIZE }

/-- `Game._finish_word_event`:

    target = self.next_words.pop(0)
    if self.input == target: self.correct.append(target)
    else: self.wrong.append(target)
    self.next_words.append(self._get_word())
    self.input = ""

`pop(0)` raises `IndexError` on an empty queue, hence `Option`. -/
def finish_word_event (vocab : List String) (pick : ℕ → ℕ) (s : GameState) :
    Option GameState :=
  match s.next_words with
  | [] => none
  | target :: rest =>
    some { s with
      correct := if s.input = target then s.correct ++ [target] else s.correct
      wrong := if s.input = target then s.wrong else s.wrong ++ [target]
      next_words := rest ++ [getWord vocab pick s.rand]
      input := ""
      rand := s.rand + 1 }

/-- `len(" ".join(self.correct))`. -/
def correct_chars (g : GameState) : ℕ := (String.intercalate " " g.correct).length

/-- `Game.calculate_cpm`: `0` when `time_played == 0`, else
`60 / time_played * correct_chars` (float arithmetic modelled over `ℚ`). -/
def calculate_cpm (g : GameState) (time_played : ℚ) : ℚ :=
  if time_played = 0 then 0 else 60 / time_played * (correct_chars g : ℚ)

/-- `Game.calculate_wpm`: `0` when `time_played == 0`, else
`60 / time_played * correct_chars / CHARS_PER_WORD`. -/
def calculate_wpm (g : GameState) (time_played : ℚ) : ℚ :=
  if time_played = 0 then 0
  else 60 / time_played * (correct_chars g : ℚ) / (CHARS_PER_WORD : ℚ)

/-- `Game.restart` without its trailing recursive `self.play()` call: the
four state-resetting assignments.  The re-entered play loop is modelled as
the subsequent `handle_key` steps of the transition system. -/
def restart (vocab : List String) (pick : ℕ → ℕ) (s : GameState) : GameState :=
  { s with
    input := ""
    correct := []
    wrong := []
    next_words := (List.range QUEUE_SIZE).map (fun i => getWord vocab pick (s.rand + i))
    rand := s.rand + QUEUE_SIZE }

/-- `Game._handle_key`.  `curses.keyname(key) == "^R"` holds exactly for
`key = 18` (Ctrl-R); `chr(key) == " "` exactly for `key = 32`.  Note the
first `if` of the source is not chained with `elif`: after `self.restart()`
returns, the following `if / elif / else` still runs on the same key, so
key 18 falls into the final `else` and `chr(18)` is appended to the input
of the restarted session. -/
def handle_key (vocab : List String) (pick : ℕ → ℕ) (key : ℕ) (s : GameState) :
    Option GameState :=
  let s1 := if key = 18 then restart vocab pick s else s
  if key = KEY_BACKSPACE ∨ key = 127 then
    some { s1 with input := pyDropLast s1.input }
  else if key = 32 then
    finish_word_event vocab pick s1
  else
    some { s1 with input := s1.input.push (Char.ofNat key) }

/-- Python 3 `round()` on the exact value: round half to even
(the rounding used by Python), as used in `int(round(cpm))`. -/
def pyRound (q : ℚ) : ℤ :=
  let f := ⌊q⌋
  let frac := q - (f : ℚ)
  if frac < 1/2 then f
  else if 1/2 < frac then f + 1
  else if f % 2 = 0 then f else f + 1

/-- One line of `Game.print_stats` output, carrying the exact value that
the f-string renders (`ACC` keeps the exact percentage that `:.2f`
formats; `CPM`/`WPM` carry the already-rounded integer). -/
inductive StatLine
  | acc : ℚ → StatLine
  | cpm : ℤ → StatLine
  | wpm : ℤ → StatLine
  deriving DecidableEq, Repr

/-- `Game.print_stats`: the list of lines written to stdout, paired with
an error flag.  `correct/total` raises `ZeroDivisionError` when
`total == 0`; the division happens inside the first f-string, before any
`print`, so in that case the output list is empty and the flag is `true`.
Both CPM and WPM are computed with `self.game_time` as the elapsed time. -/
def print_stats (g : GameState) : List StatLine × Bool :=
  let correct := g.correct.length
  let total := correct + g.wrong.length
  if total = 0 then ([], true)
  else
    ([StatLine.acc ((correct : ℚ) / (total : ℚ) * 100),
      StatLine.cpm (pyRound (calculate_cpm g (g.game_time : ℚ))),
      StatLine.wpm (pyRound (calculate_wpm g (g.game_time : ℚ)))], false)

/-- Rendering style of one displayed character: curses color pair 1
(correct), color pair 2 (incorrect), or no attribute (default). -/
inductive Style
  | correct
  | incorrect
  | default
  deriving DecidableEq, Repr

/-- Python `l[a:b]` for non-negative bounds. -/
def pySlice (l : List Char) (a b : ℕ) : List Char := (l.take b).drop a

/-- The per-typed-character loop of `Game._update_display`:

    for idx, char in enumerate(self.input):
        target_char = target[idx]
        if target_char == char: stdscr.addstr(char, color_pair(1))
        else: stdscr.addstr(target_char, color_pair(2))

When the characters match, `char == target_char`, so the emitted character
is the target character in both branches.  `target[idx]` raises
`IndexError` when the input is longer than the target, hence `Option`. -/
def renderTyped : List Char → List Char → Option (List (Char × Style))
  | [], _ => some []
  | _ :: _, [] => none
  | c :: cs, t :: ts =>
    (renderTyped cs ts).map
      (fun r => (t, if t = c then Style.correct else Style.incorrect) :: r)

/-- The body line emitted by `Game._update_display` (the header line and
`stdscr` plumbing aside): the styled characters for the typed prefix,
followed by `target[len(self.input) : width]` with no style. -/
def update_display (input target : List Char) (width : ℕ) :
    Option (List (Char × Style)) :=
  (renderTyped input target).map
    (fun r => r ++ (pySlice target input.length width).map (fun t => (t, Style.default)))

/-- `" ".join(self.next_words)`, the target text of the renderer. -/
def displayTarget (g : GameState) : List Char :=
  (String.intercalate " " g.next_words).data

/-- Session states reachable during play: the state built by
`Game.__init__`, closed under processing one key event with
`Game._handle_key` (which covers restart, backspace, word completion and
character append). -/
inductive Reachable (vocab : List String) (pick : ℕ → ℕ) (gt : ℕ) : GameState → Prop
  | init : Reachable vocab pick gt (initState vocab pick gt)
  | step {s s2 : GameState} (k : ℕ) :
      Reachable vocab pick gt s → handle_key vocab pick k s = some s2 →
      Reachable vocab pick gt s2

/-! ## Helper lemmas -/

theorem dropWhile_idem {α : Type} (p : α → Bool) (l : List α) :
    (l.dropWhile p).dropWhile p = l.dropWhile p := by
  cases h : l.dropWhile p with
  | nil => simp
  | cons a t =>
    have h2 := List.head?_dropWhile_not p l
    rw [h] at h2
    simp only [List.head?_cons] at h2
    simp [List.dropWhile_cons, h2]

theorem dropWhile_eq_self_of_prefix {α : Type} {p : α → Bool} {r d : List α}
    (hpre : r <+: d) (hd : d.dropWhile p = d) : r.dropWhile p = r := by
  cases r with
  | nil => simp
  | cons a t =>
    obtain ⟨u, hu⟩ := hpre
    have ha : p a = false := by
      by_contra hpa
      have hpa2 : p a = true := by
        cases h3 : p a with
        | false => exact absurd h3 hpa
        | true => rfl
      rw [← hu, List.cons_append, List.dropWhile_cons_of_pos hpa2] at hd
      have hlen := (List.dropWhile_sublist (l := t ++ u) p).length_le
      rw [hd] at hlen
      simp at hlen
    simp [List.dropWhile_cons, ha]

theorem pyStripL_idem (l : List Char) : pyStripL (pyStripL l) = pyStripL l := by
  unfold pyStripL
  set d := l.dropWhile isPyWs with hd
  have hdd : d.dropWhile isPyWs = d := by
    rw [hd]; exact dropWhile_idem _ _
  have hpre : (d.reverse.dropWhile isPyWs).reverse <+: d := by
    have hs : d.reverse.dropWhile isPyWs <:+ d.reverse := List.dropWhile_suffix _
    have := List.reverse_prefix.mpr hs
    simpa using this
  have h1 : ((d.reverse.dropWhile isPyWs).reverse).dropWhile isPyWs
      = (d.reverse.dropWhile isPyWs).reverse :=
    dropWhile_eq_self_of_prefix hpre hdd
  rw [h1, List.reverse_reverse, dropWhile_idem]

theorem pyStrip_idem (s : String) : pyStrip (pyStrip s) = pyStrip s := by
  simp [pyStrip, pyStripL_idem]

/-! ## Claim theorems -/

/-- C1: for every session state whose pending queue has front word `F`,
`_finish_word_event` pops `F`, appends `F` (the canonical target, never the
typed text) to the correct history exactly when the input equals `F` and to
the wrong history otherwise, pushes one newly drawn word onto the back of
the queue, and clears the input. -/
theorem finish_word_records_target (vocab : List String) (pick : ℕ → ℕ)
    (s : GameState) (F : String) (rest : List String)
    (h : s.next_words = F :: rest) :
    ∃ s2, finish_word_event vocab pick s = some s2 ∧
      s2.correct = (if s.input = F then s.correct ++ [F] else s.correct) ∧
      s2.wrong = (if s.input = F then s.wrong else s.wrong ++ [F]) ∧
      s2.next_words = rest ++ [getWord vocab pick s.rand] ∧
      s2.input = "" := by
  obtain ⟨gt, nw, co, wr, inp, rnd⟩ := s
  simp only at h
  subst h
  exact ⟨_, rfl, rfl, rfl, rfl, rfl⟩

/-- Witness for C1 at the spec scenario: input `"cot"`, front word `"cat"` →
the canonical target `"cat"` is recorded in the wrong history. -/
theorem finish_word_records_target_witness :
    ∃ s2, finish_word_event ["cat", "dog"] (fun _ => 0)
        { game_time := 60, next_words := ["cat", "dog"], correct := [], wrong := [],
          input := "cot", rand := 2 } = some s2 ∧
      s2.correct = (if "cot" = "cat" then [] ++ ["cat"] else ([] : List String)) ∧
      s2.wrong = (if "cot" = "cat" then [] else [] ++ ["cat"]) ∧
      s2.next_words = ["dog"] ++ [getWord ["cat", "dog"] (fun _ => 0) 2] ∧
      s2.input = "" :=
  finish_word_records_target ["cat", "dog"] (fun _ => 0) _ "cat" ["dog"] rfl

/-- C4: for every session state, `calculate_cpm` at any positive elapsed time
equals `calculate_wpm` times 5 (exact arithmetic over the shared formula),
and both are 0 at elapsed time 0. -/
theorem cpm_eq_wpm_mul_five (g : GameState) (t : ℚ) :
    (0 < t → calculate_cpm g t = calculate_wpm g t * 5) ∧
    calculate_cpm g 0 = 0 ∧ calculate_wpm g 0 = 0 := by
  refine ⟨fun ht => ?_, by simp [calculate_cpm], by simp [calculate_wpm]⟩
  have hne : t ≠ 0 := ne_of_gt ht
  simp only [calculate_cpm, calculate_wpm, CHARS_PER_WORD, if_neg hne]
  push_cast
  field_simp
  ring

/-- Witness for C4: the spec scenario `CorrectWords = ["the", "cat"]`,
elapsed 60. -/
theorem cpm_eq_wpm_mul_five_witness :
    calculate_cpm
      { game_time := 60, next_words := [], correct := ["the", "cat"], wrong := [],
        input := "", rand := 0 } 60 =
      calculate_wpm
        { game_time := 60, next_words := [], correct := ["the", "cat"], wrong := [],
          input := "", rand := 0 } 60 * 5 :=
  (cpm_eq_wpm_mul_five _ 60).1 (by norm_num)

/-- C10: if the session ends with no completed words, `print_stats` raises
`ZeroDivisionError` computing the accuracy before any printing, so no stats
line at all is emitted. -/
theorem print_stats_no_output_on_empty (g : GameState)
    (hc : g.correct = []) (hw : g.wrong = []) :
    print_stats g = ([], true) := by
  simp [print_stats, hc, hw]

/-- Witness for C10 at a concrete zero-word session. -/
theorem print_stats_no_output_on_empty_witness :
    print_stats
      { game_time := 60, next_words := ["cat"], correct := [], wrong := [],
        input := "ca", rand := 11 } = ([], true) :=
  print_stats_no_output_on_empty _ rfl rfl

/-- C3: whenever at least one word was completed, the accuracy value on the
`ACC` line of `print_stats` is `correct / (correct + wrong) * 100`; with zero
completed words the accuracy computation divides by zero and raises. -/
theorem accuracy_formula_and_div_zero (g : GameState) :
    (0 < g.correct.length + g.wrong.length →
      ∃ c w, print_stats g =
        ([StatLine.acc ((g.correct.length : ℚ) /
            ((g.correct.length + g.wrong.length : ℕ) : ℚ) * 100),
          StatLine.cpm c, StatLine.wpm w], false)) ∧
    (g.correct.length + g.wrong.length = 0 → (print_stats g).2 = true) := by
  constructor
  · intro h
    have hne : ¬ (g.correct.length + g.wrong.length = 0) := by omega
    exact ⟨_, _, by simp only [print_stats]; rw [if_neg hne]⟩
  · intro h
    simp [print_stats, h]

/-- Witness for C3: one correct word gives accuracy `1/1 * 100`; a session
with no completed words trips the division by zero. -/
theorem accuracy_formula_and_div_zero_witness :
    (∃ c w, print_stats
        { game_time := 60, next_words := [], correct := ["cat"], wrong := [],
          input := "", rand := 0 } =
      ([StatLine.acc ((1 : ℚ) / ((1 : ℕ) : ℚ) * 100), StatLine.cpm c,
        StatLine.wpm w], false)) ∧
    (print_stats
      { game_time := 60, next_words := [], correct := [], wrong := [],
        input := "", rand := 0 }).2 = true :=
  ⟨(accuracy_formula_and_div_zero _).1 (by decide),
   (accuracy_formula_and_div_zero _).2 rfl⟩

/-- C7: on normal completion `print_stats` passes the configured
`game_time` — not a measured elapsed time — as the denominator of both CPM
and WPM, and emits exactly the three lines ACC, CPM, WPM in that order
(`CPM`/`WPM` rounded to integers). -/
theorem print_stats_order_and_game_time (g : GameState)
    (h : 0 < g.correct.length + g.wrong.length) (hgt : 0 < g.game_time) :
    print_stats g =
      ([StatLine.acc ((g.correct.length : ℚ) /
          ((g.correct.length + g.wrong.length : ℕ) : ℚ) * 100),
        StatLine.cpm (pyRound (60 / (g.game_time : ℚ) * (correct_chars g : ℚ))),
        StatLine.wpm (pyRound (60 / (g.game_time : ℚ) * (correct_chars g : ℚ) / 5))],
       false) := by
  have hne : ¬ (g.correct.length + g.wrong.length = 0) := by omega
  have hgtne : (g.game_time : ℚ) ≠ 0 := by
    have h2 : g.game_time ≠ 0 := by omega
    exact_mod_cast h2
  simp only [print_stats, calculate_cpm, calculate_wpm, CHARS_PER_WORD]
  rw [if_neg hne, if_neg hgtne, if_neg hgtne]
  norm_num

/-- Witness for C7: two correct words (7 joined characters), one wrong word,
configured game time 60. -/
theorem print_stats_order_and_game_time_witness :
    print_stats
      { game_time := 60, next_words := [], correct := ["the", "cat"],
        wrong := ["dog"], input := "", rand := 0 } =
      ([StatLine.acc ((2 : ℚ) / ((3 : ℕ) : ℚ) * 100),
        StatLine.cpm (pyRound (60 / ((60 : ℕ) : ℚ) * ((7 : ℕ) : ℚ))),
        StatLine.wpm (pyRound (60 / ((60 : ℕ) : ℚ) * ((7 : ℕ) : ℚ) / 5))],
       false) :=
  print_stats_order_and_game_time _ (by decide) (by decide)

/-- C6 (code defect): `_handle_key` on Ctrl-R (key 18) does trigger the full
restart, but because the first `if` of the source is not chained with `elif`, the
same key event then also falls into the final `else` branch, so `chr(18)` is
appended to the input of the restarted session — the restart is *not* the only
state transition for that key event. -/
theorem ctrl_r_appends_control_char :
    ∃ s2, handle_key ["cat"] (fun _ => 0) 18
        { game_time := 60, next_words := ["cat", "cat"], correct := ["dog"],
          wrong := ["bird"], input := "ca", rand := 5 } = some s2 ∧
      s2.correct = [] ∧ s2.wrong = [] ∧
      s2.next_words = List.replicate QUEUE_SIZE "cat" ∧
      s2.input = String.mk [Char.ofNat 18] ∧ ¬ s2.input = "" := by
  refine ⟨_, rfl, ?_, ?_, ?_, ?_, ?_⟩ <;> decide

theorem restart_queue_length (vocab : List String) (pick : ℕ → ℕ) (s : GameState) :
    (restart vocab pick s).next_words.length = QUEUE_SIZE := by
  simp [restart]

theorem finish_word_event_queue_length {vocab : List String} {pick : ℕ → ℕ}
    {s s2 : GameState} (h : finish_word_event vocab pick s = some s2) :
    s2.next_words.length = s.next_words.length := by
  unfold finish_word_event at h
  cases hnw : s.next_words with
  | nil => rw [hnw] at h; cases h
  | cons F rest =>
    rw [hnw] at h
    cases h
    simp [hnw]

theorem handle_key_queue_length {vocab : List String} {pick : ℕ → ℕ} {k : ℕ}
    {s s2 : GameState} (h : handle_key vocab pick k s = some s2)
    (hl : s.next_words.length = QUEUE_SIZE) : s2.next_words.length = QUEUE_SIZE := by
  simp only [handle_key] at h
  set s1 := if k = 18 then restart vocab pick s else s with hs1
  have hl1 : s1.next_words.length = QUEUE_SIZE := by
    rw [hs1]; split
    · exact restart_queue_length vocab pick s
    · exact hl
  by_cases hb : k = KEY_BACKSPACE ∨ k = 127
  · rw [if_pos hb] at h
    cases h
    simpa using hl1
  · rw [if_neg hb] at h
    by_cases hsp : k = 32
    · rw [if_pos hsp] at h
      rw [finish_word_event_queue_length h]
      exact hl1
    · rw [if_neg hsp] at h
      cases h
      simpa using hl1

/-- C2: in every reachable session state the pending queue has length
exactly `QUEUE_SIZE = 10` — it holds immediately after `__init__` and is
preserved by every key event (`_handle_key`), and from any such state both
`restart` and a successful `_finish_word_event` again yield a queue of
length 10. -/
theorem queue_length_invariant (vocab : List String) (pick : ℕ → ℕ) (gt : ℕ)
    (s : GameState) (h : Reachable vocab pick gt s) :
    s.next_words.length = QUEUE_SIZE ∧
    (restart vocab pick s).next_words.length = QUEUE_SIZE ∧
    ∀ s2, finish_word_event vocab pick s = some s2 →
      s2.next_words.length = QUEUE_SIZE := by
  have hmain : s.next_words.length = QUEUE_SIZE := by
    induction h with
    | init => simp [initState, QUEUE_SIZE]
    | step k hr heq ih => exact handle_key_queue_length heq ih
  refine ⟨hmain, restart_queue_length vocab pick s, fun s2 h2 => ?_⟩
  rw [finish_word_event_queue_length h2]
  exact hmain

/-- Witness for C2 at the freshly initialized session. -/
theorem queue_length_invariant_witness :
    (initState ["cat"] (fun _ => 0) 60).next_words.length = QUEUE_SIZE :=
  (queue_length_invariant ["cat"] (fun _ => 0) 60 _ Reachable.init).1

theorem wordGenLoop_eq_take (minL maxL N : ℕ) (lines : List String) :
    ∀ (acc : List String), acc.length < N →
      wordGenLoop minL maxL N acc lines =
        acc ++ ((lines.map pyStrip).filter (lenOK minL maxL)).take (N - acc.length) := by
  induction lines with
  | nil =>
    intro acc h
    simp [wordGenLoop]
  | cons line rest ih =>
    intro acc h
    by_cases hq : minL ≤ (pyStrip line).length ∧ (pyStrip line).length ≤ maxL
    · have hq2 : lenOK minL maxL (pyStrip line) = true := by
        simp [lenOK, hq.1, hq.2]
      by_cases hend : N ≤ acc.length + 1
      · have hNsub : N - acc.length = 1 := by omega
        simp only [wordGenLoop, List.map_cons, List.filter_cons, hq2, if_pos hq,
          if_true, List.length_append, List.length_cons, List.length_nil]
        rw [if_pos (by simpa using hend), hNsub]
        simp
      · have hlt : (acc ++ [pyStrip line]).length < N := by simp; omega
        simp only [wordGenLoop, List.map_cons, List.filter_cons, hq2, if_pos hq,
          if_true, List.length_append, List.length_cons, List.length_nil]
        rw [if_neg (by simp; omega), ih _ hlt]
        obtain ⟨m, hm⟩ : ∃ m, N - acc.length = m + 1 := ⟨N - acc.length - 1, by omega⟩
        rw [hm]
        have hm2 : N - (acc ++ [pyStrip line]).length = m := by simp; omega
        rw [hm2]
        simp [List.append_assoc]
    · have hq2 : lenOK minL maxL (pyStrip line) = false := by
        simp only [lenOK, Bool.and_eq_false_imp, decide_eq_true_eq, decide_eq_false_iff_not]
        intro h1 h2
        exact hq ⟨h1, h2⟩
      simp only [wordGenLoop, List.map_cons, List.filter_cons, hq2, if_neg hq,
        Bool.false_eq_true, if_false]
      rw [if_neg (by omega)]
      exact ih acc h

/-- C5 (amended to `words ≥ 1`): for `words ≥ 1`, the loaded vocabulary is
exactly the stripped lines whose length lies in the inclusive range
`[min_length, max_length]`, in file order, truncated to the first `words`
qualifying lines. -/
theorem wordGen_filter_order_truncation (minL maxL N : ℕ) (lines : List String)
    (hN : 1 ≤ N) :
    wordGenWords minL maxL N lines =
      ((lines.map pyStrip).filter (lenOK minL maxL)).take N := by
  have h := wordGenLoop_eq_take minL maxL N lines [] (by simpa using hN)
  simpa [wordGenWords] using h

/-- Witness for C5 (amended) at the spec scenario: vocabulary
`["cat", "dog", "bird"]`, bounds 3..4, `words = 10`. -/
theorem wordGen_filter_order_truncation_witness :
    wordGenWords 3 4 10 ["cat", "dog", "bird"] =
      (((["cat", "dog", "bird"] : List String).map pyStrip).filter (lenOK 3 4)).take 10 :=
  wordGen_filter_order_truncation 3 4 10 ["cat", "dog", "bird"] (by decide)

/-- C5 counterexample: with `words = 0` the claimed bound "at most `words`
entries" fails — the break test `len(words) >= args.words` runs only after
the first line has already been processed, so the first qualifying line is
kept anyway. -/
theorem wordGen_truncation_exceeds_requested_zero :
    wordGenWords 1 5 0 ["ab"] = ["ab"] ∧
      ¬ (wordGenWords 1 5 0 ["ab"]).length ≤ 0 := by
  constructor
  · decide
  · decide

theorem ite_eq_symm {α : Type} (a b : Char) (x y : α) :
    (if a = b then x else y) = (if b = a then x else y) := by
  by_cases h : a = b
  · rw [if_pos h, if_pos h.symm]
  · rw [if_neg h, if_neg (fun h2 => h h2.symm)]

theorem renderTyped_eq_zipWith :
    ∀ (input target : List Char), input.length ≤ target.length →
      renderTyped input target = some (List.zipWith
        (fun c t => (t, if t = c then Style.correct else Style.incorrect)) input target)
  | [], _, _ => by simp [renderTyped]
  | _ :: _, [], h => by simp at h
  | c :: cs, t :: ts, h => by
    simp only [renderTyped, List.zipWith_cons_cons]
    rw [renderTyped_eq_zipWith cs ts (by simpa using h)]
    rfl

/-- C8: when the typed input is no longer than the target text (the pending
queue joined by single spaces), the renderer emits, for each index
`i < length(Input)`, the *target* character at `i` — never the typed
character — styled correct exactly when `Input[i] = target[i]` and incorrect
otherwise, followed by `target[len(Input) : width]` (the remainder clipped
to the terminal width) in default style. -/
theorem update_display_styles (g : GameState) (width : ℕ)
    (h : g.input.data.length ≤ (displayTarget g).length) :
    ∃ r, update_display g.input.data (displayTarget g) width = some r ∧
      r = List.zipWith (fun c t => (t, if t = c then Style.correct else Style.incorrect))
            g.input.data (displayTarget g)
          ++ (pySlice (displayTarget g) g.input.data.length width).map
              (fun t => (t, Style.default)) ∧
      ∀ i : ℕ, i < g.input.data.length →
        r.getD i (' ', Style.default) =
          ((displayTarget g).getD i ' ',
            if g.input.data.getD i ' ' = (displayTarget g).getD i ' ' then Style.correct
            else Style.incorrect) := by
  refine ⟨_, ?_, rfl, ?_⟩
  · rw [update_display, renderTyped_eq_zipWith _ _ h]
    rfl
  · intro i hi
    have hit : i < (displayTarget g).length := lt_of_lt_of_le hi h
    have hzlen : (List.zipWith
        (fun c t => (t, if t = c then Style.correct else Style.incorrect))
        g.input.data (displayTarget g)).length = g.input.data.length := by
      rw [List.length_zipWith]
      omega
    rw [List.getD_eq_getElem?_getD, List.getElem?_append_left (by rw [hzlen]; exact hi),
      List.getElem?_eq_getElem (by rw [hzlen]; exact hi)]
    simp only [Option.getD_some, List.getElem_zipWith]
    rw [List.getD_eq_getElem _ _ hi, List.getD_eq_getElem _ _ hit]
    rw [ite_eq_symm]

/-- Witness for C8: input `"cox"` against queue `["cat", "dog"]`
(target `"cat dog"`), terminal width 5. -/
theorem update_display_styles_witness :
    ∃ r, update_display
        (GameState.input
          { game_time := 60, next_words := ["cat", "dog"], correct := [], wrong := [],
            input := "cox", rand := 0 }).data
        (displayTarget
          { game_time := 60, next_words := ["cat", "dog"], correct := [], wrong := [],
            input := "cox", rand := 0 }) 5 = some r ∧
      r = List.zipWith (fun c t => (t, if t = c then Style.correct else Style.incorrect))
            (GameState.input
              { game_time := 60, next_words := ["cat", "dog"], correct := [], wrong := [],
                input := "cox", rand := 0 }).data
            (displayTarget
              { game_time := 60, next_words := ["cat", "dog"], correct := [], wrong := [],
                input := "cox", rand := 0 })
          ++ (pySlice
                (displayTarget
                  { game_time := 60, next_words := ["cat", "dog"], correct := [],
                    wrong := [], input := "cox", rand := 0 }) 3 5).map
              (fun t => (t, Style.default)) ∧
      ∀ i : ℕ, i < 3 →
        r.getD i (' ', Style.default) =
          ((displayTarget
              { game_time := 60, next_words := ["cat", "dog"], correct := [], wrong := [],
                input := "cox", rand := 0 }).getD i ' ',
            if (GameState.input
                  { game_time := 60, next_words := ["cat", "dog"], correct := [],
                    wrong := [], input := "cox", rand := 0 }).data.getD i ' ' =
                (displayTarget
                  { game_time := 60, next_words := ["cat", "dog"], correct := [],
                    wrong := [], input := "cox", rand := 0 }).getD i ' '
            then Style.correct else Style.incorrect) :=
  update_display_styles
    { game_time := 60, next_words := ["cat", "dog"], correct := [], wrong := [],
      input := "cox", rand := 0 } 5 (by decide)

theorem getWord_mem {vocab : List String} (pick : ℕ → ℕ) (k : ℕ) (h : vocab ≠ []) :
    getWord vocab pick k ∈ vocab := by
  unfold getWord
  have hlen : 0 < vocab.length := List.length_pos.mpr h
  have hlt : pick k % vocab.length < vocab.length := Nat.mod_lt _ hlen
  rw [List.getD_eq_getElem _ _ hlt]
  exact List.getElem_mem hlt

theorem wordGenLoop_mem_props (minL maxL N : ℕ) (lines : List String) :
    ∀ (acc : List String),
      (∀ w ∈ acc, minL ≤ w.length ∧ w.length ≤ maxL ∧ pyStrip w = w) →
      ∀ w ∈ wordGenLoop minL maxL N acc lines,
        minL ≤ w.length ∧ w.length ≤ maxL ∧ pyStrip w = w := by
  induction lines with
  | nil =>
    intro acc hacc w hw
    exact hacc w (by simpa [wordGenLoop] using hw)
  | cons line rest ih =>
    intro acc hacc w hw
    simp only [wordGenLoop] at hw
    by_cases hq : minL ≤ (pyStrip line).length ∧ (pyStrip line).length ≤ maxL
    · simp only [if_pos hq] at hw
      have hacc2 : ∀ v ∈ acc ++ [pyStrip line],
          minL ≤ v.length ∧ v.length ≤ maxL ∧ pyStrip v = v := by
        intro v hv
        rcases List.mem_append.mp hv with hv | hv
        · exact hacc v hv
        · rcases List.mem_singleton.mp hv with rfl
          exact ⟨hq.1, hq.2, pyStrip_idem line⟩
      split at hw
      · exact hacc2 w hw
      · exact ih _ hacc2 w hw
    · simp only [if_neg hq] at hw
      split at hw
      · exact hacc w hw
      · exact ih _ hacc w hw

theorem initState_queue_mem {vocab : List String} (pick : ℕ → ℕ) (gt : ℕ)
    (h : vocab ≠ []) : ∀ w ∈ (initState vocab pick gt).next_words, w ∈ vocab := by
  intro w hw
  simp only [initState, List.mem_map] at hw
  obtain ⟨i, _, rfl⟩ := hw
  exact getWord_mem pick i h

theorem restart_queue_mem {vocab : List String} (pick : ℕ → ℕ) (s : GameState)
    (h : vocab ≠ []) : ∀ w ∈ (restart vocab pick s).next_words, w ∈ vocab := by
  intro w hw
  simp only [restart, List.mem_map] at hw
  obtain ⟨i, _, rfl⟩ := hw
  exact getWord_mem pick _ h

theorem finish_word_event_queue_mem {vocab : List String} {pick : ℕ → ℕ}
    {s s2 : GameState} (h : finish_word_event vocab pick s = some s2)
    (hne : vocab ≠ []) (hq : ∀ w ∈ s.next_words, w ∈ vocab) :
    ∀ w ∈ s2.next_words, w ∈ vocab := by
  unfold finish_word_event at h
  cases hnw : s.next_words with
  | nil => rw [hnw] at h; cases h
  | cons F rest =>
    rw [hnw] at h
    cases h
    intro w hw
    simp only at hw
    rcases List.mem_append.mp hw with hw | hw
    · exact hq w (by rw [hnw]; exact List.mem_cons_of_mem _ hw)
    · rcases List.mem_singleton.mp hw with rfl
      exact getWord_mem pick _ hne

theorem handle_key_queue_mem {vocab : List String} {pick : ℕ → ℕ} {k : ℕ}
    {s s2 : GameState} (h : handle_key vocab pick k s = some s2)
    (hne : vocab ≠ []) (hq : ∀ w ∈ s.next_words, w ∈ vocab) :
    ∀ w ∈ s2.next_words, w ∈ vocab := by
  simp only [handle_key] at h
  set s1 := if k = 18 then restart vocab pick s else s with hs1
  have hq1 : ∀ w ∈ s1.next_words, w ∈ vocab := by
    rw [hs1]; split
    · exact restart_queue_mem pick s hne
    · exact hq
  by_cases hb : k = KEY_BACKSPACE ∨ k = 127
  · rw [if_pos hb] at h
    cases h
    simpa using hq1
  · rw [if_neg hb] at h
    by_cases hsp : k = 32
    · rw [if_pos hsp] at h
      exact finish_word_event_queue_mem h hne hq1
    · rw [if_neg hsp] at h
      cases h
      simpa using hq1

theorem reachable_queue_mem {vocab : List String} {pick : ℕ → ℕ} {gt : ℕ}
    {s : GameState} (hne : vocab ≠ []) (h : Reachable vocab pick gt s) :
    ∀ w ∈ s.next_words, w ∈ vocab := by
  induction h with
  | init => exact initState_queue_mem pick gt hne
  | step k hr heq ih => exact handle_key_queue_mem heq hne ih

/-- C9: in every reachable session state, every word in the pending queue —
seeded at initialization, refilled by `_finish_word_event`, rebuilt by
`restart` — is an element of the filtered vocabulary, hence is
whitespace-stripped and its length lies within `[min_length, max_length]`. -/
theorem queue_words_from_vocab (lines : List String) (minL maxL N : ℕ)
    (pick : ℕ → ℕ) (gt : ℕ) (s : GameState)
    (hne : wordGenWords minL maxL N lines ≠ [])
    (h : Reachable (wordGenWords minL maxL N lines) pick gt s) :
    ∀ w ∈ s.next_words,
      w ∈ wordGenWords minL maxL N lines ∧
      minL ≤ w.length ∧ w.length ≤ maxL ∧ pyStrip w = w := by
  intro w hw
  have hmem := reachable_queue_mem hne h w hw
  exact ⟨hmem, wordGenLoop_mem_props minL maxL N lines [] (by simp) w hmem⟩

/-- Witness for C9: the word `"cat"`, sitting in the queue of a freshly
initialized session over the vocabulary loaded from lines `["cat", "dog"]`
with bounds 2..5, is in the vocabulary, within bounds, and stripped. -/
theorem queue_words_from_vocab_witness :
    "cat" ∈ wordGenWords 2 5 10 ["cat", "dog"] ∧
      2 ≤ String.length "cat" ∧ String.length "cat" ≤ 5 ∧ pyStrip "cat" = "cat" :=
  queue_words_from_vocab ["cat", "dog"] 2 5 10 (fun _ => 0) 60 _ (by decide)
    Reachable.init "cat" (by decide)

end TypingTest
